import Mathlib

/-!
# Verification of the `kvstore` storage engine

Shallow embedding of `src/keyvaluedb.rs` (struct `KeyValueDb`), `src/extenders.rs`
(`KeyValueDbListExtender`) and `src/iterators.rs` (`KeyValueDbListIterator`).

The Rust `HashMap<String, _>` maps are embedded as association lists
(`List (String × _)`) with lookup/insert/remove functions that match
`HashMap` semantics: `mapInsertL` replaces the binding in place (returning the
old value, as `HashMap::insert` does), `mapRemoveL` removes the binding.
Reachable stores have no duplicate keys, so the first-occurrence versions
below coincide with `HashMap` behaviour.

The serializer (`src/serialization.rs` is referenced by `lib.rs` but is not
part of the sources given) is modelled from the spec, §4.2: a record of four
functions `encode_value / decode_value / encode_snapshot / decode_snapshot`,
abstract in the value type `V`, the value-byte type `B` and the file-byte
type `F`.

File-system effects (`fs::write`, `fs::rename`) are embedded by an `Env`
record that fixes the outcome of each I/O call, a `writeCount` field counting
attempted file mutations, and a `file : Option F` field holding the backing
file's content.  `Instant::now()` is modelled by `Env.now : Nat`.
-/

set_option autoImplicit false

namespace KvStore

variable {B F V : Type}

/-- Lookup of the first binding of `k`, mirroring `HashMap::get`. -/
def mapGet : List (String × V) → String → Option V
  | [], _ => none
  | (k', v) :: rest, k => if k' = k then some v else mapGet rest k

/-- `HashMap::contains_key`. -/
def mapContains (m : List (String × V)) (k : String) : Bool :=
  (mapGet m k).isSome

/-- The map part of `HashMap::insert`: replace the first binding of `k` in
place, or append a new binding at the end. -/
def mapInsertL : List (String × V) → String → V → List (String × V)
  | [], k, v => [(k, v)]
  | (k', v') :: rest, k, v =>
    if k' = k then (k, v) :: rest else (k', v') :: mapInsertL rest k v

/-- The map part of `HashMap::remove`: drop the first binding of `k`. -/
def mapRemoveL : List (String × V) → String → List (String × V)
  | [], _ => []
  | (k', v') :: rest, k => if k' = k then rest else (k', v') :: mapRemoveL rest k

/-- `HashMap::insert`, returning the new map and the previous value. -/
def mapInsert (m : List (String × V)) (k : String) (v : V) :
    List (String × V) × Option V :=
  (mapInsertL m k v, mapGet m k)

/-- `HashMap::remove`, returning the new map and the removed value. -/
def mapRemove (m : List (String × V)) (k : String) :
    List (String × V) × Option V :=
  (mapRemoveL m k, mapGet m k)

/-- Extensional equality of maps: the notion of state equality relevant for
`HashMap` (iteration order is unspecified). -/
def mapEquiv (m₁ m₂ : List (String × V)) : Prop :=
  ∀ k, mapGet m₁ k = mapGet m₂ k

/-- The keys of the map are pairwise distinct (always true of a `HashMap`;
holds for every reachable store state). -/
def nodupKeys (m : List (String × V)) : Prop :=
  (m.map Prod.fst).Nodup

/-- `error::ErrorCode` — `Io(io::Error)` or `Serialization(String)`
(src/error.rs). The OS error payload is not modelled. -/
inductive Err where
  | io : Err
  | ser : String → Err
deriving DecidableEq, Repr

/-- Modelled from the spec: §4.2 Serializer Abstraction.  `src/serialization.rs`
is referenced by `lib.rs` but missing from the given sources, so the four
serializer entry points (`serialize_data`, `deserialize_data`, `serialize_db`,
`deserialize_db`) are kept abstract, exactly as the spec's contract
`encode_value(V) -> bytes | EncodingError`,
`decode_value::<V>(bytes) -> V | None`,
`encode_snapshot(scalars, lists) -> bytes | EncodingError`,
`decode_snapshot(bytes) -> (scalars, lists) | EncodingError` describes. -/
structure Ser (B F V : Type) where
  serData : V → Except String B
  deData : B → Option V
  serDb : List (String × B) → List (String × List B) → Except String F
  deDb : F → Except String (List (String × B) × List (String × List B))

/-- Modelled from the spec: §4.2 — "The snapshot codec must be self-describing
enough to reconstruct both maps from one buffer." The decoder inverts the
encoder. -/
def Ser.DbRoundtrip (sr : Ser B F V) : Prop :=
  ∀ m l f, sr.serDb m l = .ok f → sr.deDb f = .ok (m, l)

/-- `KeyValueDbDumpPolicy` (src/keyvaluedb.rs). The `Duration` of
`PeriodicDump` is modelled as a `Nat` tick count. -/
inductive DumpPolicy where
  | NeverDump
  | AutoDump
  | DumpUponRequest
  | PeriodicDump (interval : Nat)
deriving DecidableEq, Repr

/-- The `KeyValueDb` struct together with the file-system facts the claims
need: the backing file's content and a count of attempted file mutations
(`fs::write` / `fs::rename` calls). `last_dump : Instant` becomes a `Nat`. -/
structure DbState (B F : Type) where
  map : List (String × B)
  list_map : List (String × List B)
  file : Option F
  writeCount : Nat
  dump_policy : DumpPolicy
  last_dump : Nat
deriving Repr, DecidableEq

/-- Environment of one engine call: outcome of the `fs::write` and
`fs::rename` system calls, and the value of `Instant::now()`. -/
structure Env where
  writeOk : Bool
  renameOk : Bool
  now : Nat
deriving Repr

/-- `KeyValueDb::new`: empty maps, nothing read or written. -/
def newDb (policy : DumpPolicy) (now : Nat) : DbState B F :=
  { map := [], list_map := [], file := none, writeCount := 0,
    dump_policy := policy, last_dump := now }

/-- `KeyValueDb::dump` (src/keyvaluedb.rs lines 178–211): no-op under
`NeverDump`; otherwise serialize the snapshot, write it to a temp path,
atomically rename over the backing file, and under `PeriodicDump` refresh
`last_dump` on success. -/
def dump (sr : Ser B F V) (env : Env) (st : DbState B F) :
    Except Err Unit × DbState B F :=
  match st.dump_policy with
  | .NeverDump => (.ok (), st)
  | _ =>
    match sr.serDb st.map st.list_map with
    | .error s => (.error (.ser s), st)
    | .ok ser_db =>
      let st1 := { st with writeCount := st.writeCount + 1 }
      if !env.writeOk then (.error .io, st1)
      else
        let st2 := { st1 with writeCount := st1.writeCount + 1 }
        if !env.renameOk then (.error .io, st2)
        else
          let st3 := { st2 with file := some ser_db }
          match st3.dump_policy with
          | .PeriodicDump _ => (.ok (), { st3 with last_dump := env.now })
          | _ => (.ok (), st3)

/-- `KeyValueDb::dumpdb` (lines 216–230), the policy-conditional dump invoked
after each mutation: dump under `AutoDump`; under `PeriodicDump` refresh
`last_dump` and dump only when the interval has elapsed; otherwise succeed
without writing. -/
def dumpdb (sr : Ser B F V) (env : Env) (st : DbState B F) :
    Except Err Unit × DbState B F :=
  match st.dump_policy with
  | .AutoDump => dump sr env st
  | .PeriodicDump duration =>
    if env.now - st.last_dump > duration then
      let st1 := { st with last_dump := env.now }
      match dump sr env st1 with
      | (.ok _, st2) => (.ok (), st2)
      | (.error e, st2) => (.error e, st2)
    else (.ok (), st)
  | _ => (.ok (), st)

/-- `KeyValueDb::set` (lines 236–264): drop a same-named list (invariant I1),
serialize, insert the scalar, conditional-dump; on dump failure restore the
previous scalar entry (or remove the key if it was new) and surface the
error. -/
def set (sr : Ser B F V) (env : Env) (key : String) (value : V)
    (st : DbState B F) : Except Err Unit × DbState B F :=
  let st0 :=
    if mapContains st.list_map key then
      { st with list_map := (mapRemove st.list_map key).1 }
    else st
  match sr.serData value with
  | .error err_str => (.error (.ser err_str), st0)
  | .ok ser_data =>
    let ins := mapInsert st0.map key ser_data
    let original_value := ins.2
    let st1 := { st0 with map := ins.1 }
    match dumpdb sr env st1 with
    | (.ok _, st2) => (.ok (), st2)
    | (.error e, st2) =>
      match original_value with
      | none => (.error e, { st2 with map := (mapRemove st2.map key).1 })
      | some orig_value =>
        (.error e, { st2 with map := (mapInsert st2.map key orig_value).1 })

/-- `KeyValueDb::get` (lines 266–274): look the key up in the scalar map and
decode; decode failure reads as absent. -/
def get (sr : Ser B F V) (st : DbState B F) (key : String) : Option V :=
  match mapGet st.map key with
  | some val => sr.deData val
  | none => none

/-- `KeyValueDb::exists` (lines 276–278). -/
def exists' (st : DbState B F) (key : String) : Bool :=
  (mapGet st.map key).isSome || (mapGet st.list_map key).isSome

/-- Second half of `KeyValueDb::rem` (lines 304–315): try the list map, with
its own conditional dump and reinsertion on failure; `removedMap` is
`remove_map.is_some()` from the first half. -/
def remPhase2 (sr : Ser B F V) (env : Env) (key : String) (removedMap : Bool)
    (st : DbState B F) : Except Err Bool × DbState B F :=
  match mapGet st.list_map key with
  | none => (.ok (removedMap || false), st)
  | some list =>
    let st1 := { st with list_map := (mapRemove st.list_map key).1 }
    match dumpdb sr env st1 with
    | (.ok _, st2) => (.ok (removedMap || true), st2)
    | (.error e, st2) =>
      (.error e, { st2 with list_map := (mapInsert st2.list_map key list).1 })

/-- `KeyValueDb::rem` (lines 292–316): remove from the scalar map (dump,
reinsert on dump failure), then from the list map likewise; report whether
either map lost an entry. -/
def rem (sr : Ser B F V) (env : Env) (key : String) (st : DbState B F) :
    Except Err Bool × DbState B F :=
  match mapGet st.map key with
  | none => remPhase2 sr env key false st
  | some val =>
    let st1 := { st with map := (mapRemove st.map key).1 }
    match dumpdb sr env st1 with
    | (.ok _, st2) => remPhase2 sr env key true st2
    | (.error e, st2) =>
      (.error e, { st2 with map := (mapInsert st2.map key val).1 })

/-- `KeyValueDb::lcreate` (lines 319–330): drop a same-named scalar
(invariant I1), install an empty list, conditional-dump (error propagates
without rollback), return an extender bound to `name` — the extender is its
bound list name (`extenders.rs`: `db` reference plus `list_name`). -/
def lcreate (sr : Ser B F V) (env : Env) (name : String) (st : DbState B F) :
    Except Err String × DbState B F :=
  let st0 :=
    if mapContains st.map name then
      { st with map := (mapRemove st.map name).1 }
    else st
  let st1 := { st0 with list_map := (mapInsert st0.list_map name []).1 }
  match dumpdb sr env st1 with
  | (.ok _, st2) => (.ok name, st2)
  | (.error e, st2) => (.error e, st2)

/-- `KeyValueDb::lexists` (lines 332–334). -/
def lexists (st : DbState B F) (name : String) : Bool :=
  (mapGet st.list_map name).isSome

/-- Outcome of `lextend`/`ladd` and of the extender methods: either a Rust
panic (carrying the store state at the moment of the panic), or a normal
return of `Option<KeyValueDbListExtender>` — the extender being its bound
list name — together with the store state. -/
inductive LexRes (B F : Type) where
  | panicked (st : DbState B F)
  | ok (handle : Option String) (st : DbState B F)

/-- The store state carried by a `LexRes`, whichever way the call ended. -/
def LexRes.state : LexRes B F → DbState B F
  | .panicked st => st
  | .ok _ st => st

/-- `seq.into_iter().map(|x| serializer.serialize_data(x).unwrap()).collect()`
before the `unwrap`s: serialize every element, stopping at the first
failure. -/
def serializeAll (sr : Ser B F V) : List V → Except String (List B)
  | [] => .ok []
  | v :: rest =>
    match sr.serData v with
    | .error s => .error s
    | .ok b =>
      match serializeAll sr rest with
      | .error s => .error s
      | .ok bs => .ok (b :: bs)

/-- `KeyValueDb::lextend` (lines 343–373): on an existing list, record the
pre-append length, serialize all elements (each with an unconditional
`unwrap`, so a serialization failure panics before anything is appended),
extend the list, conditional-dump; on dump failure truncate back to the
recorded length and return no handle; on a missing list return no handle and
change nothing. -/
def lextend (sr : Ser B F V) (env : Env) (name : String) (seq : List V)
    (st : DbState B F) : LexRes B F :=
  match mapGet st.list_map name with
  | none => .ok none st
  | some list =>
    let original_len := list.length
    match serializeAll sr seq with
    | .error _ => .panicked st
    | .ok serialized =>
      let st1 := { st with list_map := (mapInsert st.list_map name (list ++ serialized)).1 }
      match dumpdb sr env st1 with
      | (.ok _, st2) => .ok (some name) st2
      | (.error _, st2) =>
        let same_list := (mapGet st2.list_map name).getD []
        .ok none
          { st2 with list_map := (mapInsert st2.list_map name (same_list.take original_len)).1 }

/-- `KeyValueDb::ladd` (lines 336–341): `lextend` with a one-element
sequence. -/
def ladd (sr : Ser B F V) (env : Env) (name : String) (value : V)
    (st : DbState B F) : LexRes B F :=
  lextend sr env name [value] st

/-- `KeyValueDb::lget` (lines 375–386). -/
def lget (sr : Ser B F V) (st : DbState B F) (name : String) (pos : Nat) :
    Option V :=
  match mapGet st.list_map name with
  | some list =>
    match list.get? pos with
    | some val => sr.deData val
    | none => none
  | none => none

/-- `KeyValueDb::llen` (lines 388–393). -/
def llen (st : DbState B F) (name : String) : Nat :=
  match mapGet st.list_map name with
  | some list => list.length
  | none => 0

/-- `KeyValueDb::lrem_list` (lines 395–407): remove the whole list,
conditional-dump, reinsert on failure; return the prior length. -/
def lrem_list (sr : Ser B F V) (env : Env) (name : String) (st : DbState B F) :
    Except Err Nat × DbState B F :=
  let res := llen st name
  match mapGet st.list_map name with
  | some list =>
    let st1 := { st with list_map := (mapRemove st.list_map name).1 }
    match dumpdb sr env st1 with
    | (.ok _, st2) => (.ok res, st2)
    | (.error e, st2) =>
      (.error e, { st2 with list_map := (mapInsert st2.list_map name list).1 })
  | none => (.ok res, st)

/-- `KeyValueDb::lpop` (lines 409–432): remove and decode the element at
`pos`; on conditional-dump failure reinsert the raw element at the same
position and return absent. -/
def lpop (sr : Ser B F V) (env : Env) (name : String) (pos : Nat)
    (st : DbState B F) : Option V × DbState B F :=
  match mapGet st.list_map name with
  | some list =>
    if h : pos < list.length then
      let res := list.get ⟨pos, h⟩
      let st1 := { st with list_map := (mapInsert st.list_map name (list.eraseIdx pos)).1 }
      match dumpdb sr env st1 with
      | (.ok _, st2) => (sr.deData res, st2)
      | (.error _, st2) =>
        let same_list := (mapGet st2.list_map name).getD []
        (none,
          { st2 with list_map := (mapInsert st2.list_map name (same_list.insertIdx pos res)).1 })
    else (none, st)
  | none => (none, st)

/-- `KeyValueDb::lrem_value` (lines 434–464): serialize the value, remove its
first byte-equal occurrence, conditional-dump, reinsert at the same position
on failure; report whether a match was removed. -/
def lrem_value [DecidableEq B] (sr : Ser B F V) (env : Env) (name : String)
    (value : V) (st : DbState B F) : Except Err Bool × DbState B F :=
  match mapGet st.list_map name with
  | some list =>
    match sr.serData value with
    | .error err_str => (.error (.ser err_str), st)
    | .ok serialized_value =>
      match list.indexOf? serialized_value with
      | some pos =>
        let st1 := { st with list_map := (mapInsert st.list_map name (list.eraseIdx pos)).1 }
        match dumpdb sr env st1 with
        | (.ok _, st2) => (.ok true, st2)
        | (.error e, st2) =>
          let same_list := (mapGet st2.list_map name).getD []
          (.error e,
            { st2 with list_map := (mapInsert st2.list_map name (same_list.insertIdx pos serialized_value)).1 })
      | none => (.ok false, st)
  | none => (.ok false, st)

/-- `KeyValueDbListExtender::ladd` (extenders.rs lines 12–17): delegate to the
store's `ladd` with the bound name, then `unwrap()` the returned
`Option` — an absent handle panics. -/
def extLadd (sr : Ser B F V) (env : Env) (list_name : String) (value : V)
    (st : DbState B F) : LexRes B F :=
  match ladd sr env list_name value st with
  | .panicked st' => .panicked st'
  | .ok none st' => .panicked st'
  | .ok (some h) st' => .ok (some h) st'

/-- `KeyValueDbListExtender::lextend` (extenders.rs lines 20–26): delegate to
the store's `lextend`, then `unwrap()` the returned `Option`. -/
def extLextend (sr : Ser B F V) (env : Env) (list_name : String) (seq : List V)
    (st : DbState B F) : LexRes B F :=
  match lextend sr env list_name seq st with
  | .panicked st' => .panicked st'
  | .ok none st' => .panicked st'
  | .ok (some h) st' => .ok (some h) st'

/-- Result of a call that may `panic!` instead of returning. -/
inductive PanicOr (α : Type) where
  | panicked
  | ok (a : α)
deriving DecidableEq, Repr

/-- `KeyValueDb::liter` (lines 473–481): panic if the list does not exist;
otherwise an iterator over the list's elements — modelled as the element
sequence the `KeyValueDbListIterator` of iterators.rs yields, in order. -/
def liter (st : DbState B F) (name : String) : PanicOr (List B) :=
  match mapGet st.list_map name with
  | some list => .ok list
  | none => .panicked

/-- `KeyValueDbListIteratorItem::get_item` applied to each yielded element
(iterators.rs lines 59–87): on-demand decode of every element in order. -/
def literDecoded (sr : Ser B F V) (st : DbState B F) (name : String) :
    PanicOr (List (Option V)) :=
  match liter st name with
  | .panicked => .panicked
  | .ok list => .ok (list.map sr.deData)

/-- `KeyValueDb::load` (lines 93–121) given the backing file's content
(`none` = the file cannot be read): decode the snapshot into the two maps. -/
def loadDb (sr : Ser B F V) (content : Option F) (policy : DumpPolicy)
    (now : Nat) : Except Err (DbState B F) :=
  match content with
  | none => .error .io
  | some f =>
    match sr.deDb f with
    | .error s => .error (.ser s)
    | .ok maps_from_file =>
      .ok { map := maps_from_file.1, list_map := maps_from_file.2,
            file := content, writeCount := 0,
            dump_policy := policy, last_dump := now }

/-- One public mutating operation of the engine (plus explicit `dump`), as
named in §6 of the spec. -/
inductive Op (V : Type) where
  | opSet (k : String) (v : V)
  | opRem (k : String)
  | opLcreate (n : String)
  | opLadd (n : String) (v : V)
  | opLextend (n : String) (vs : List V)
  | opLremList (n : String)
  | opLpop (n : String) (i : Nat)
  | opLremValue (n : String) (v : V)
  | opDump

/-- The store state after one public operation. -/
def stepSt [DecidableEq B] (sr : Ser B F V) (env : Env) (op : Op V)
    (st : DbState B F) : DbState B F :=
  match op with
  | .opSet k v => (set sr env k v st).2
  | .opRem k => (rem sr env k st).2
  | .opLcreate n => (lcreate sr env n st).2
  | .opLadd n v => (ladd sr env n v st).state
  | .opLextend n vs => (lextend sr env n vs st).state
  | .opLremList n => (lrem_list sr env n st).2
  | .opLpop n i => (lpop sr env n i st).2
  | .opLremValue n v => (lrem_value sr env n v st).2
  | .opDump => (dump sr env st).2

/-- The store state after a sequence of public operations, each with its own
I/O environment. -/
def run [DecidableEq B] (sr : Ser B F V) : List (Env × Op V) → DbState B F →
    DbState B F
  | [], st => st
  | (env, op) :: rest, st => run sr rest (stepSt sr env op st)

/-- Stores reachable through the public operations: `new`; any public
operation applied to a reachable store; `load` of a file produced by a
successful `dump` of a reachable store. -/
inductive Reachable [DecidableEq B] (sr : Ser B F V) : DbState B F → Prop where
  | new : ∀ policy now, Reachable sr (newDb policy now)
  | step : ∀ env op st, Reachable sr st → Reachable sr (stepSt sr env op st)
  | load : ∀ st env st' policy now st'',
      Reachable sr st → dump sr env st = (.ok (), st') →
      loadDb sr st'.file policy now = .ok st'' → Reachable sr st''

/-! ## Association-list lemmas -/

theorem mapGet_insertL_self (m : List (String × V)) (k : String) (v : V) :
    mapGet (mapInsertL m k v) k = some v := by
  induction m with
  | nil => simp [mapInsertL, mapGet]
  | cons p rest ih =>
    obtain ⟨k', v'⟩ := p
    by_cases h : k' = k <;> simp [mapInsertL, mapGet, h, ih]

theorem mapGet_insertL_ne (m : List (String × V)) (k k' : String) (v : V)
    (h : k' ≠ k) : mapGet (mapInsertL m k v) k' = mapGet m k' := by
  induction m with
  | nil => simp [mapInsertL, mapGet, Ne.symm h]
  | cons p rest ih =>
    obtain ⟨k₀, v₀⟩ := p
    by_cases h₀ : k₀ = k
    · subst h₀
      simp [mapInsertL, mapGet, Ne.symm h]
    · simp [mapInsertL, mapGet, h₀, ih]

theorem mapGet_removeL_ne (m : List (String × V)) (k k' : String)
    (h : k' ≠ k) : mapGet (mapRemoveL m k) k' = mapGet m k' := by
  induction m with
  | nil => simp [mapRemoveL]
  | cons p rest ih =>
    obtain ⟨k₀, v₀⟩ := p
    by_cases h₀ : k₀ = k
    · subst h₀
      simp [mapRemoveL, mapGet, Ne.symm h]
    · simp [mapRemoveL, mapGet, h₀, ih]

theorem removeL_of_notMem (m : List (String × V)) (k : String)
    (h : mapGet m k = none) : mapRemoveL m k = m := by
  induction m with
  | nil => simp [mapRemoveL]
  | cons p rest ih =>
    obtain ⟨k₀, v₀⟩ := p
    by_cases h₀ : k₀ = k
    · simp [mapGet, h₀] at h
    · simp [mapGet, h₀] at h
      simp [mapRemoveL, h₀, ih h]

theorem removeL_insertL_of_notMem (m : List (String × V)) (k : String) (v : V)
    (h : mapGet m k = none) : mapRemoveL (mapInsertL m k v) k = m := by
  induction m with
  | nil => simp [mapInsertL, mapRemoveL]
  | cons p rest ih =>
    obtain ⟨k₀, v₀⟩ := p
    by_cases h₀ : k₀ = k
    · simp [mapGet, h₀] at h
    · simp [mapGet, h₀] at h
      simp [mapInsertL, mapRemoveL, h₀, ih h]

theorem insertL_insertL_restore (m : List (String × V)) (k : String)
    (v v₀ : V) (h : mapGet m k = some v₀) :
    mapInsertL (mapInsertL m k v) k v₀ = m := by
  induction m with
  | nil => simp [mapGet] at h
  | cons p rest ih =>
    obtain ⟨k₀, w⟩ := p
    by_cases h₀ : k₀ = k
    · subst h₀
      simp [mapGet] at h
      simp [mapInsertL, h]
    · simp [mapGet, h₀] at h
      simp [mapInsertL, h₀, ih h]

theorem mapEquiv_insert_remove_restore (m : List (String × V)) (k : String)
    (v₀ : V) (h : mapGet m k = some v₀) :
    mapEquiv (mapInsertL (mapRemoveL m k) k v₀) m := by
  intro k'
  by_cases hk : k' = k
  · subst hk
    rw [mapGet_insertL_self, h]
  · rw [mapGet_insertL_ne _ _ _ _ hk, mapGet_removeL_ne _ _ _ hk]

/-! ## Dump lemmas: the dump step never touches the in-memory maps, and is a
complete no-op under `NeverDump`. -/

theorem dump_maps (sr : Ser B F V) (env : Env) (st : DbState B F) :
    (dump sr env st).2.map = st.map ∧
    (dump sr env st).2.list_map = st.list_map ∧
    (dump sr env st).2.dump_policy = st.dump_policy := by
  unfold dump
  rcases st with ⟨m, l, f, w, p, t⟩
  cases p <;> dsimp <;> (try split) <;> (try split) <;> (try split) <;> simp_all

theorem dumpdb_maps (sr : Ser B F V) (env : Env) (st : DbState B F) :
    (dumpdb sr env st).2.map = st.map ∧
    (dumpdb sr env st).2.list_map = st.list_map ∧
    (dumpdb sr env st).2.dump_policy = st.dump_policy := by
  rcases st with ⟨m, l, f, w, p, t⟩
  cases p with
  | NeverDump => simp [dumpdb]
  | AutoDump => exact dump_maps sr env _
  | DumpUponRequest => simp [dumpdb]
  | PeriodicDump d =>
    unfold dumpdb
    dsimp
    split
    · have h := dump_maps sr env
        ⟨m, l, f, w, .PeriodicDump d, env.now⟩
      rcases hd : dump sr env ⟨m, l, f, w, .PeriodicDump d, env.now⟩ with ⟨r, st2⟩
      rw [hd] at h
      cases r <;> simpa using h
    · simp

theorem dump_neverDump (sr : Ser B F V) (env : Env) (st : DbState B F)
    (h : st.dump_policy = .NeverDump) : dump sr env st = (.ok (), st) := by
  unfold dump
  rw [h]

theorem dumpdb_neverDump (sr : Ser B F V) (env : Env) (st : DbState B F)
    (h : st.dump_policy = .NeverDump) : dumpdb sr env st = (.ok (), st) := by
  unfold dumpdb
  rw [h]

/-! ## Key-set lemmas (reachable stores never hold duplicate keys, matching
`HashMap`) -/

theorem mapGet_none_of_contains_false (m : List (String × V)) (k : String)
    (h : mapContains m k = false) : mapGet m k = none := by
  cases hg : mapGet m k with
  | none => rfl
  | some w => rw [mapContains, hg] at h; exact Bool.noConfusion h

theorem mapGet_eq_none_of_notMem (m : List (String × V)) (k : String)
    (h : k ∉ m.map Prod.fst) : mapGet m k = none := by
  induction m with
  | nil => rfl
  | cons p rest ih =>
    obtain ⟨k₀, v₀⟩ := p
    simp only [List.map_cons, List.mem_cons] at h
    push_neg at h
    simp [mapGet, Ne.symm h.1, ih h.2]

theorem notMem_of_mapGet_eq_none (m : List (String × V)) (k : String)
    (h : mapGet m k = none) : k ∉ m.map Prod.fst := by
  induction m with
  | nil => simp
  | cons p rest ih =>
    obtain ⟨k₀, v₀⟩ := p
    by_cases h₀ : k₀ = k
    · simp [mapGet, h₀] at h
    · simp [mapGet, h₀] at h
      simp [Ne.symm h₀, ih h]

theorem keys_insertL (m : List (String × V)) (k : String) (v : V) :
    (mapInsertL m k v).map Prod.fst =
      if mapContains m k then m.map Prod.fst else m.map Prod.fst ++ [k] := by
  induction m with
  | nil => simp [mapInsertL, mapContains, mapGet]
  | cons p rest ih =>
    obtain ⟨k₀, v₀⟩ := p
    by_cases h₀ : k₀ = k
    · simp [mapInsertL, mapContains, mapGet, h₀]
    · simp only [mapInsertL, if_neg h₀, List.map_cons]
      rw [ih]
      have hsame : mapContains ((k₀, v₀) :: rest) k = mapContains rest k := by
        simp [mapContains, mapGet, h₀]
      rw [hsame]
      split <;> simp

theorem removeL_sublist (m : List (String × V)) (k : String) :
    (mapRemoveL m k).Sublist m := by
  induction m with
  | nil => simp [mapRemoveL]
  | cons p rest ih =>
    obtain ⟨k₀, v₀⟩ := p
    by_cases h₀ : k₀ = k
    · simp only [mapRemoveL, if_pos h₀]
      exact List.sublist_cons_self _ _
    · simp only [mapRemoveL, if_neg h₀]
      exact ih.cons₂ _

theorem nodup_insertL (m : List (String × V)) (k : String) (v : V)
    (h : nodupKeys m) : nodupKeys (mapInsertL m k v) := by
  unfold nodupKeys at h ⊢
  rw [keys_insertL]
  split
  · exact h
  · rename_i hc
    have hnone : mapGet m k = none := by
      cases hg : mapGet m k with
      | none => rfl
      | some w => exact absurd (by simp [mapContains, hg]) hc
    have hk := notMem_of_mapGet_eq_none m k hnone
    refine List.Nodup.append h (List.nodup_singleton k) ?_
    intro a ha hak
    simp only [List.mem_singleton] at hak
    subst hak
    exact hk ha

theorem nodup_removeL (m : List (String × V)) (k : String)
    (h : nodupKeys m) : nodupKeys (mapRemoveL m k) :=
  h.sublist ((removeL_sublist m k).map Prod.fst)

theorem contains_removeL_self (m : List (String × V)) (k : String)
    (h : nodupKeys m) : mapContains (mapRemoveL m k) k = false := by
  induction m with
  | nil => simp [mapRemoveL, mapContains, mapGet]
  | cons p rest ih =>
    obtain ⟨k₀, v₀⟩ := p
    unfold nodupKeys at h
    simp only [List.map_cons, List.nodup_cons] at h
    by_cases h₀ : k₀ = k
    · subst h₀
      simp only [mapRemoveL, if_pos rfl]
      simp [mapContains, mapGet_eq_none_of_notMem rest k₀ h.1]
    · simp only [mapRemoveL, if_neg h₀]
      simp only [mapContains, mapGet, if_neg h₀]
      simpa [mapContains] using ih h.2

/-! ## Concrete serializers used by witnesses and counterexamples -/

/-- File-byte type of the concrete witness serializers: the literal pair of
maps. -/
abbrev NatF : Type := List (String × Nat) × List (String × List Nat)

/-- A total concrete serializer: `Nat` values encoded as themselves, the
snapshot encoded as the literal pair of maps; decoding inverts encoding. -/
def natSer : Ser Nat NatF Nat where
  serData := fun v => .ok v
  deData := fun b => some b
  serDb := fun m l => .ok (m, l)
  deDb := fun f => .ok f

/-- A concrete serializer whose value encoding fails on `0` (and on nothing
else); used to exhibit the serialization-failure paths. -/
def failSer : Ser Nat NatF Nat where
  serData := fun v => if v = 0 then .error "boom" else .ok v
  deData := fun b => some b
  serDb := fun m l => .ok (m, l)
  deDb := fun f => .ok f

/-! ## Characterizations of `set` -/

/-- A dump attempt after a mutation never changes the two in-memory maps or
the policy, stated through an equation on its result. -/
theorem dumpdb_eq_maps (sr : Ser B F V) (env : Env) (st st2 : DbState B F)
    (r : Except Err Unit) (h : dumpdb sr env st = (r, st2)) :
    st2.map = st.map ∧ st2.list_map = st.list_map ∧
    st2.dump_policy = st.dump_policy := by
  have hm := dumpdb_maps sr env st
  rw [h] at hm
  exact hm

/-- On the success path, `set` leaves the scalar map with the serialized value
inserted at `key`. -/
theorem set_ok_map (sr : Ser B F V) (env : Env) (key : String) (v : V)
    (b : B) (st st' : DbState B F)
    (hser : sr.serData v = .ok b)
    (hset : set sr env key v st = (.ok (), st')) :
    st'.map = mapInsertL st.map key b := by
  unfold set at hset
  rw [hser] at hset
  by_cases hc : mapContains st.list_map key = true
  · rw [if_pos hc] at hset
    dsimp only at hset
    split at hset
    · rename_i st2 heq
      obtain ⟨hm, -, -⟩ := dumpdb_eq_maps sr env _ _ _ heq
      have hst : st2 = st' := congrArg Prod.snd hset
      subst hst
      simpa [mapInsert] using hm
    · split at hset <;> simp at hset
  · rw [if_neg hc] at hset
    dsimp only at hset
    split at hset
    · rename_i st2 heq
      obtain ⟨hm, -, -⟩ := dumpdb_eq_maps sr env _ _ _ heq
      have hst : st2 = st' := congrArg Prod.snd hset
      subst hst
      simpa [mapInsert] using hm
    · split at hset <;> simp at hset

/-- C3: for every supported value type `V`, concrete value `v` and key `k`,
a successful `set(k, v)` followed by `get::<V>(k)` returns `Some(v)`.
The hypotheses `hser`/`hde` state that the (spec-modelled) serializer
round-trips on `v`. -/
theorem set_get_roundtrip (sr : Ser B F V) (env : Env) (key : String)
    (v : V) (b : B) (st st' : DbState B F)
    (hser : sr.serData v = .ok b) (hde : sr.deData b = some v)
    (hset : set sr env key v st = (.ok (), st')) :
    get sr st' key = some v := by
  have hmap := set_ok_map sr env key v b st st' hser hset
  simp [get, hmap, mapGet_insertL_self, hde]

/-- Witness for C3 at a concrete input: a fresh `NeverDump` store, key `"k"`,
value `5`, under the concrete serializer `natSer`. -/
theorem set_get_roundtrip_witness :
    get natSer (set natSer ⟨true, true, 0⟩ "k" 5 (newDb .NeverDump 0)).2 "k" =
      some 5 :=
  set_get_roundtrip natSer ⟨true, true, 0⟩ "k" 5 5 (newDb .NeverDump 0)
    (set natSer ⟨true, true, 0⟩ "k" 5 (newDb .NeverDump 0)).2
    rfl rfl rfl

/-- C8: requesting a list iterator for a name absent from the list map panics
(it is not a recoverable `Result` or an absent value); for an existing list it
yields an iterator over exactly that list's elements, each decoded on
demand. -/
theorem liter_panics_on_missing (sr : Ser B F V) (st : DbState B F)
    (name : String) :
    (mapGet st.list_map name = none → liter st name = .panicked) ∧
    (∀ l, mapGet st.list_map name = some l →
      liter st name = .ok l ∧
      literDecoded sr st name = .ok (l.map sr.deData)) := by
  constructor
  · intro h
    unfold liter
    rw [h]
  · intro l h
    refine ⟨?_, ?_⟩
    · unfold liter
      rw [h]
    · unfold literDecoded liter
      rw [h]

/-- Witness for C8: a store holding one list `"l" ↦ [7]`; iterating `"gone"`
panics, iterating `"l"` yields `[7]`. -/
theorem liter_panics_on_missing_witness :
    liter ({ map := [], list_map := [("l", [7])], file := none,
             writeCount := 0, dump_policy := .AutoDump, last_dump := 0 } :
           DbState Nat NatF) "gone" = .panicked ∧
    liter ({ map := [], list_map := [("l", [7])], file := none,
             writeCount := 0, dump_policy := .AutoDump, last_dump := 0 } :
           DbState Nat NatF) "l" = .ok [7] :=
  ⟨(liter_panics_on_missing natSer _ "gone").1 (by decide),
   ((liter_panics_on_missing natSer _ "l").2 [7] (by decide)).1⟩

/-- C9: when `set` is called on a key currently holding a list and
serialization of the new value fails, the error is surfaced but the list has
already been removed and is not restored — the list map changes even though
an error is reported. -/
theorem set_serfail_drops_list (sr : Ser B F V) (env : Env) (key : String)
    (v : V) (s : String) (st : DbState B F)
    (hnd : nodupKeys st.list_map)
    (hlist : mapContains st.list_map key = true)
    (hser : sr.serData v = .error s) :
    set sr env key v st =
      (.error (.ser s), { st with list_map := mapRemoveL st.list_map key }) ∧
    mapContains (mapRemoveL st.list_map key) key = false ∧
    mapRemoveL st.list_map key ≠ st.list_map := by
  refine ⟨?_, contains_removeL_self _ _ hnd, ?_⟩
  · simp [set, hser, hlist, mapRemove]
  · intro hEq
    have hfalse := contains_removeL_self st.list_map key hnd
    rw [hEq, hlist] at hfalse
    exact Bool.noConfusion hfalse

/-- Witness for C9: `failSer` cannot encode `0`; `set "k" 0` on a store whose
`"k"` holds a list drops the list and errors. -/
theorem set_serfail_drops_list_witness :
    set failSer ⟨true, true, 0⟩ "k" 0
      ({ map := [], list_map := [("k", [1])], file := none, writeCount := 0,
         dump_policy := .AutoDump, last_dump := 0 } : DbState Nat NatF) =
      (.error (.ser "boom"),
        { map := [], list_map := [], file := none, writeCount := 0,
          dump_policy := .AutoDump, last_dump := 0 }) ∧
    mapContains ([] : List (String × List Nat)) "k" = false :=
  have h := set_serfail_drops_list failSer ⟨true, true, 0⟩ "k" 0 "boom"
    { map := [], list_map := [("k", [1])], file := none, writeCount := 0,
      dump_policy := .AutoDump, last_dump := 0 }
    (by simp [nodupKeys]) (by decide) rfl
  ⟨by simpa using h.1, by simpa using h.2.1⟩

/-- C1 counterexample: on a store whose key `"k"` holds a list, a `set("k",·)`
that hits a dump failure (the `fs::write` call fails) surfaces the error and
restores the scalar map, but the list map has lost `"k"` — it is not "left
exactly as it was before the call". -/
theorem set_dumpfail_list_lost_cex :
    (set natSer ⟨false, true, 0⟩ "k" 5
      ({ map := [], list_map := [("k", [0])], file := none, writeCount := 0,
         dump_policy := .AutoDump, last_dump := 0 } : DbState Nat NatF)).1 =
      .error .io ∧
    (set natSer ⟨false, true, 0⟩ "k" 5
      ({ map := [], list_map := [("k", [0])], file := none, writeCount := 0,
         dump_policy := .AutoDump, last_dump := 0 } : DbState Nat NatF)).2.map =
      [] ∧
    (set natSer ⟨false, true, 0⟩ "k" 5
      ({ map := [], list_map := [("k", [0])], file := none, writeCount := 0,
         dump_policy := .AutoDump, last_dump := 0 } :
         DbState Nat NatF)).2.list_map ≠ [("k", [0])] :=
  ⟨rfl, rfl, by decide⟩

/-- C1 (amended): if `set(key, value)` reaches the dump and the dump fails, it
restores the previous scalar entry (or removes the key if it was new) — the
scalar map is exactly as before — and surfaces the failure; the list map
equals the original with any same-named list removed per invariant I1 (so it
is unchanged exactly when `key` named no list), that removal not being rolled
back. -/
theorem set_dumpfail_rollback (sr : Ser B F V) (env : Env) (key : String)
    (v : V) (b : B) (st st' : DbState B F) (e : Err)
    (hser : sr.serData v = .ok b)
    (hset : set sr env key v st = (.error e, st')) :
    st'.map = st.map ∧
    st'.list_map = mapRemoveL st.list_map key ∧
    (mapContains st.list_map key = false → st'.list_map = st.list_map) := by
  unfold set at hset
  rw [hser] at hset
  by_cases hc : mapContains st.list_map key = true
  · rw [if_pos hc] at hset
    dsimp only at hset
    split at hset
    · simp at hset
    · rename_i e2 st2 heq
      obtain ⟨hm2, hl2, -⟩ := dumpdb_eq_maps sr env _ _ _ heq
      dsimp only [mapInsert, mapRemove] at hm2 hl2 hset
      split at hset
      · rename_i hov
        have hst : _ = st' := congrArg Prod.snd hset
        subst hst
        refine ⟨?_, by simpa using hl2, ?_⟩
        · dsimp only [mapRemove]
          rw [hm2, removeL_insertL_of_notMem _ _ _ hov]
        · intro hcf
          rw [hcf] at hc
          exact absurd hc Bool.noConfusion
      · rename_i ov hov
        have hst : _ = st' := congrArg Prod.snd hset
        subst hst
        refine ⟨?_, by simpa using hl2, ?_⟩
        · dsimp only [mapInsert]
          rw [hm2, insertL_insertL_restore _ _ _ _ hov]
        · intro hcf
          rw [hcf] at hc
          exact absurd hc Bool.noConfusion
  · rw [if_neg hc] at hset
    dsimp only at hset
    have hcf : mapContains st.list_map key = false := by
      cases hb : mapContains st.list_map key with
      | false => rfl
      | true => exact absurd hb hc
    have hrem : mapRemoveL st.list_map key = st.list_map :=
      removeL_of_notMem _ _ (mapGet_none_of_contains_false _ _ hcf)
    split at hset
    · simp at hset
    · rename_i e2 st2 heq
      obtain ⟨hm2, hl2, -⟩ := dumpdb_eq_maps sr env _ _ _ heq
      dsimp only [mapInsert] at hm2 hl2 hset
      split at hset
      · rename_i hov
        have hst : _ = st' := congrArg Prod.snd hset
        subst hst
        refine ⟨?_, ?_, fun _ => ?_⟩
        · dsimp only [mapRemove]
          rw [hm2, removeL_insertL_of_notMem _ _ _ hov]
        · dsimp only
          rw [hl2, hrem]
        · dsimp only
          exact hl2
      · rename_i ov hov
        have hst : _ = st' := congrArg Prod.snd hset
        subst hst
        refine ⟨?_, ?_, fun _ => ?_⟩
        · dsimp only [mapInsert]
          rw [hm2, insertL_insertL_restore _ _ _ _ hov]
        · dsimp only
          rw [hl2, hrem]
        · dsimp only
          exact hl2

/-- Witness for the amended C1: `set "k" 5` over an `AutoDump` store holding
scalar `"k" ↦ 9` and no lists, with the `fs::write` call failing: the error
surfaces and both maps are exactly as before. -/
theorem set_dumpfail_rollback_witness :
    (set natSer ⟨false, true, 0⟩ "k" 5
      ({ map := [("k", 9)], list_map := [], file := none, writeCount := 0,
         dump_policy := .AutoDump, last_dump := 0 } : DbState Nat NatF)).2.map
      = [("k", 9)] ∧
    (set natSer ⟨false, true, 0⟩ "k" 5
      ({ map := [("k", 9)], list_map := [], file := none, writeCount := 0,
         dump_policy := .AutoDump, last_dump := 0 } :
         DbState Nat NatF)).2.list_map = [] :=
  have h := set_dumpfail_rollback natSer ⟨false, true, 0⟩ "k" 5 5
    { map := [("k", 9)], list_map := [], file := none, writeCount := 0,
      dump_policy := .AutoDump, last_dump := 0 }
    (set natSer ⟨false, true, 0⟩ "k" 5
      { map := [("k", 9)], list_map := [], file := none, writeCount := 0,
        dump_policy := .AutoDump, last_dump := 0 }).2
    .io rfl rfl
  ⟨h.1, h.2.2 rfl⟩

/-- C10 counterexample: with a serializer that fails on `0`, `lextend "l" [1, 0]`
on a store whose list `"l"` is empty panics — but the list is unchanged: the
element `1`, serialized before the panic, is NOT left appended, because all
elements are collected before `list.extend` runs. -/
theorem lextend_serfail_cex :
    lextend failSer ⟨true, true, 0⟩ "l" [1, 0]
      ({ map := [], list_map := [("l", [])], file := none, writeCount := 0,
         dump_policy := .AutoDump, last_dump := 0 } : DbState Nat NatF) =
      .panicked { map := [], list_map := [("l", [])], file := none,
                  writeCount := 0, dump_policy := .AutoDump, last_dump := 0 } ∧
    llen ({ map := [], list_map := [("l", [])], file := none, writeCount := 0,
            dump_policy := .AutoDump, last_dump := 0 } : DbState Nat NatF) "l"
      = 0 :=
  ⟨rfl, rfl⟩

/-- C10 (amended): `lextend` (hence `ladd` and the extender's chained calls)
is not total — each element is serialized with an unconditional `unwrap`, so
if serialization of any element fails the call panics instead of returning an
error or absent handle; the store is left exactly as it was (no element is
appended, since the whole sequence is serialized and collected before the
list is extended). -/
theorem lextend_serfail_panics (sr : Ser B F V) (env : Env) (name : String)
    (seq : List V) (s : String) (l : List B) (st : DbState B F)
    (hl : mapGet st.list_map name = some l)
    (hser : serializeAll sr seq = .error s) :
    lextend sr env name seq st = .panicked st ∧
    (∀ v, sr.serData v = .error s → ladd sr env name v st = .panicked st) := by
  constructor
  · unfold lextend
    rw [hl]
    dsimp only
    rw [hser]
  · intro v hv
    have hone : serializeAll sr [v] = .error s := by
      unfold serializeAll
      rw [hv]
    unfold ladd lextend
    rw [hl]
    dsimp only
    rw [hone]

/-- Witness for the amended C10 at the counterexample input. -/
theorem lextend_serfail_panics_witness :
    lextend failSer ⟨true, true, 0⟩ "l" [1, 0]
      ({ map := [], list_map := [("l", [])], file := none, writeCount := 0,
         dump_policy := .AutoDump, last_dump := 0 } : DbState Nat NatF) =
      .panicked { map := [], list_map := [("l", [])], file := none,
                  writeCount := 0, dump_policy := .AutoDump,
                  last_dump := 0 } :=
  (lextend_serfail_panics failSer ⟨true, true, 0⟩ "l" [1, 0] "boom" []
    { map := [], list_map := [("l", [])], file := none, writeCount := 0,
      dump_policy := .AutoDump, last_dump := 0 } rfl rfl).1

/-- C6: `lextend`/`ladd` on an existing list appends the serialized values
and returns a handle on success; on conditional-dump failure it truncates the
list back to its pre-append length (restoring the list map exactly) and
returns no handle; on a missing list it returns no handle and changes
nothing. Stated for a sequence whose elements all serialize (the failing case
is C10). -/
theorem lextend_append_or_rollback (sr : Ser B F V) (env : Env)
    (name : String) (seq : List V) (sers : List B) (st : DbState B F)
    (hser : serializeAll sr seq = .ok sers) :
    (mapGet st.list_map name = none →
      lextend sr env name seq st = .ok none st) ∧
    (∀ l, mapGet st.list_map name = some l →
      (∃ st', lextend sr env name seq st = .ok (some name) st' ∧
        mapGet st'.list_map name = some (l ++ sers)) ∨
      (∃ st', lextend sr env name seq st = .ok none st' ∧
        st'.list_map = st.list_map)) := by
  constructor
  · intro h
    unfold lextend
    rw [h]
  · intro l h
    unfold lextend
    rw [h]
    dsimp only
    rw [hser]
    dsimp only
    split
    · rename_i st2 heq
      left
      refine ⟨st2, rfl, ?_⟩
      obtain ⟨-, hl2, -⟩ := dumpdb_eq_maps sr env _ _ _ heq
      dsimp only [mapInsert] at hl2
      rw [hl2, mapGet_insertL_self]
    · rename_i e st2 heq
      right
      obtain ⟨-, hl2, -⟩ := dumpdb_eq_maps sr env _ _ _ heq
      dsimp only [mapInsert] at hl2
      refine ⟨_, rfl, ?_⟩
      dsimp only
      rw [hl2, mapGet_insertL_self]
      dsimp only [Option.getD]
      rw [List.take_left]
      exact insertL_insertL_restore st.list_map name (l ++ sers) l h

/-- Witness for C6: appending `[2, 3]` to list `"l" ↦ [1]` under `NeverDump`
succeeds and yields `[1, 2, 3]`; a missing list yields no handle and no
change. -/
theorem lextend_append_or_rollback_witness :
    lextend natSer ⟨true, true, 0⟩ "nope" [2]
      ({ map := [], list_map := [("l", [1])], file := none, writeCount := 0,
         dump_policy := .NeverDump, last_dump := 0 } : DbState Nat NatF) =
      .ok none
        { map := [], list_map := [("l", [1])], file := none, writeCount := 0,
          dump_policy := .NeverDump, last_dump := 0 } :=
  (lextend_append_or_rollback natSer ⟨true, true, 0⟩ "nope" [2] [2]
    { map := [], list_map := [("l", [1])], file := none, writeCount := 0,
      dump_policy := .NeverDump, last_dump := 0 } rfl).1 rfl

/-- C7 counterexample: with a failing dump (`fs::write` refused), the store's
`ladd` returns no handle after rolling back, while the extender's chained
`ladd` — which calls exactly the store's `ladd` and then `unwrap`s — panics:
the store effect is identical but the observable outcome on failure is not
the same. -/
theorem extender_unwrap_cex :
    ladd natSer ⟨false, true, 0⟩ "l" 1
      ({ map := [], list_map := [("l", [])], file := none, writeCount := 0,
         dump_policy := .AutoDump, last_dump := 0 } : DbState Nat NatF) =
      .ok none
        { map := [], list_map := [("l", [])], file := none, writeCount := 1,
          dump_policy := .AutoDump, last_dump := 0 } ∧
    extLadd natSer ⟨false, true, 0⟩ "l" 1
      ({ map := [], list_map := [("l", [])], file := none, writeCount := 0,
         dump_policy := .AutoDump, last_dump := 0 } : DbState Nat NatF) =
      .panicked
        { map := [], list_map := [("l", [])], file := none, writeCount := 1,
          dump_policy := .AutoDump, last_dump := 0 } :=
  ⟨rfl, rfl⟩

/-- C7 (amended): a chained `ladd`/`lextend` call on a List Extender performs
exactly the store's `ladd`/`lextend` with the bound name — the store effect
is identical in every case and the extender carries no state but its bound
name — and the observable outcome coincides on success; but when the store
call returns no handle (dump failure or missing list) the chained call panics
on its `unwrap` instead of reporting absence. -/
theorem extender_delegates (sr : Ser B F V) (env : Env) (name : String)
    (v : V) (seq : List V) (st : DbState B F) :
    (extLadd sr env name v st).state = (ladd sr env name v st).state ∧
    (extLextend sr env name seq st).state =
      (lextend sr env name seq st).state ∧
    (∀ h st', ladd sr env name v st = .ok (some h) st' →
      extLadd sr env name v st = .ok (some h) st') ∧
    (∀ st', ladd sr env name v st = .ok none st' →
      extLadd sr env name v st = .panicked st') ∧
    (∀ h st', lextend sr env name seq st = .ok (some h) st' →
      extLextend sr env name seq st = .ok (some h) st') ∧
    (∀ st', lextend sr env name seq st = .ok none st' →
      extLextend sr env name seq st = .panicked st') := by
  refine ⟨?_, ?_, ?_, ?_, ?_, ?_⟩
  · unfold extLadd
    rcases ladd sr env name v st with st' | ⟨_ | h, st'⟩ <;> rfl
  · unfold extLextend
    rcases lextend sr env name seq st with st' | ⟨_ | h, st'⟩ <;> rfl
  · intro h st' hr
    unfold extLadd
    rw [hr]
  · intro st' hr
    unfold extLadd
    rw [hr]
  · intro h st' hr
    unfold extLextend
    rw [hr]
  · intro st' hr
    unfold extLextend
    rw [hr]

/-- Witness for the amended C7 at the counterexample input: the chained call
panics exactly where the direct call reports no handle. -/
theorem extender_delegates_witness :
    extLadd natSer ⟨false, true, 0⟩ "l" 1
      ({ map := [], list_map := [("l", [])], file := none, writeCount := 0,
         dump_policy := .AutoDump, last_dump := 0 } : DbState Nat NatF) =
      .panicked
        { map := [], list_map := [("l", [])], file := none, writeCount := 1,
          dump_policy := .AutoDump, last_dump := 0 } :=
  (extender_delegates natSer ⟨false, true, 0⟩ "l" 1 [1]
    { map := [], list_map := [("l", [])], file := none, writeCount := 0,
      dump_policy := .AutoDump, last_dump := 0 }).2.2.2.1
    { map := [], list_map := [("l", [])], file := none, writeCount := 1,
      dump_policy := .AutoDump, last_dump := 0 } rfl

/-- Characterization of the list-map phase of `rem` (keyvaluedb.rs lines
304–313): no-op when the list map misses the key; on success the key's list
binding is removed; on dump failure the binding is reinserted, leaving the
list map extensionally unchanged. -/
theorem remPhase2_spec (sr : Ser B F V) (env : Env) (key : String)
    (rM : Bool) (st : DbState B F) :
    (mapContains st.list_map key = false →
      remPhase2 sr env key rM st = (.ok rM, st)) ∧
    (∀ b st', remPhase2 sr env key rM st = (.ok b, st') →
      b = (rM || mapContains st.list_map key) ∧
      st'.list_map = mapRemoveL st.list_map key ∧ st'.map = st.map) ∧
    (∀ e st', remPhase2 sr env key rM st = (.error e, st') →
      mapEquiv st'.list_map st.list_map ∧ st'.map = st.map) := by
  refine ⟨?_, ?_, ?_⟩
  · intro hc
    unfold remPhase2
    rw [mapGet_none_of_contains_false _ _ hc]
    dsimp only
    rw [Bool.or_false]
  · intro b st' hr
    unfold remPhase2 at hr
    cases hg : mapGet st.list_map key with
    | none =>
      rw [hg] at hr
      dsimp only at hr
      simp only [Prod.mk.injEq, Except.ok.injEq] at hr
      obtain ⟨hb, hst⟩ := hr
      subst hst
      refine ⟨by simp [← hb, mapContains, hg], ?_, rfl⟩
      rw [removeL_of_notMem _ _ hg]
    | some list =>
      rw [hg] at hr
      dsimp only at hr
      split at hr
      · rename_i st2 heq
        obtain ⟨hm2, hl2, -⟩ := dumpdb_eq_maps sr env _ _ _ heq
        dsimp only [mapRemove] at hm2 hl2
        simp only [Prod.mk.injEq, Except.ok.injEq] at hr
        obtain ⟨hb, hst⟩ := hr
        subst hst
        exact ⟨by simp [← hb, mapContains, hg], hl2, hm2⟩
      · simp at hr
  · intro e st' hr
    unfold remPhase2 at hr
    cases hg : mapGet st.list_map key with
    | none =>
      rw [hg] at hr
      dsimp only at hr
      simp at hr
    | some list =>
      rw [hg] at hr
      dsimp only at hr
      split at hr
      · simp at hr
      · rename_i e2 st2 heq
        obtain ⟨hm2, hl2, -⟩ := dumpdb_eq_maps sr env _ _ _ heq
        dsimp only [mapRemove] at hm2 hl2
        simp only [Prod.mk.injEq, Except.error.injEq] at hr
        obtain ⟨he, hst⟩ := hr
        subst hst
        dsimp only [mapInsert]
        constructor
        · rw [hl2]
          exact mapEquiv_insert_remove_restore _ _ _ hg
        · exact hm2

/-- C4: `remove(key)` removes the key from whichever map contains it and
returns `Ok(true)` exactly when something was removed; for a key in neither
map it returns `Ok(false)` with the state untouched; on a dump failure
(under I1, the key not being in both maps) it reinserts the removed entry —
both maps extensionally unchanged — and surfaces the error. -/
theorem rem_spec (sr : Ser B F V) (env : Env) (key : String)
    (st : DbState B F) :
    (mapContains st.map key = false → mapContains st.list_map key = false →
      rem sr env key st = (.ok false, st)) ∧
    (∀ b st', rem sr env key st = (.ok b, st') →
      b = (mapContains st.map key || mapContains st.list_map key) ∧
      st'.map = mapRemoveL st.map key ∧
      st'.list_map = mapRemoveL st.list_map key) ∧
    (∀ e st',
      ¬(mapContains st.map key = true ∧ mapContains st.list_map key = true) →
      rem sr env key st = (.error e, st') →
      mapEquiv st'.map st.map ∧ mapEquiv st'.list_map st.list_map) := by
  obtain ⟨hp1, hp2, hp3⟩ := remPhase2_spec sr env key false st
  refine ⟨?_, ?_, ?_⟩
  · intro hm hl
    unfold rem
    rw [mapGet_none_of_contains_false _ _ hm]
    exact hp1 hl
  · intro b st' hr
    unfold rem at hr
    cases hg : mapGet st.map key with
    | none =>
      rw [hg] at hr
      obtain ⟨hb, hl', hm'⟩ := hp2 b st' hr
      have hcm : mapContains st.map key = false := by simp [mapContains, hg]
      refine ⟨by rw [hb, hcm, Bool.false_or], ?_, hl'⟩
      rw [hm', removeL_of_notMem _ _ hg]
    | some val =>
      rw [hg] at hr
      dsimp only at hr
      split at hr
      · rename_i st2 heq
        obtain ⟨hm2, hl2, -⟩ := dumpdb_eq_maps sr env _ _ _ heq
        dsimp only [mapRemove] at hm2 hl2
        obtain ⟨-, hq2, hq3⟩ := remPhase2_spec sr env key true st2
        obtain ⟨hb, hl', hm'⟩ := hq2 b st' hr
        have hcm : mapContains st.map key = true := by simp [mapContains, hg]
        refine ⟨by simp [hb, hcm], ?_, ?_⟩
        · rw [hm', hm2]
        · rw [hl', hl2]
      · simp at hr
  · intro e st' hdisj hr
    unfold rem at hr
    cases hg : mapGet st.map key with
    | none =>
      rw [hg] at hr
      obtain ⟨hl', hm'⟩ := hp3 e st' hr
      exact ⟨by rw [hm']; exact fun k => rfl, hl'⟩
    | some val =>
      rw [hg] at hr
      dsimp only at hr
      have hcm : mapContains st.map key = true := by simp [mapContains, hg]
      have hcl : mapContains st.list_map key = false := by
        cases hb : mapContains st.list_map key with
        | false => rfl
        | true => exact absurd ⟨hcm, hb⟩ hdisj
      split at hr
      · rename_i st2 heq
        obtain ⟨hm2, hl2, -⟩ := dumpdb_eq_maps sr env _ _ _ heq
        dsimp only [mapRemove] at hm2 hl2
        obtain ⟨hq1, -, -⟩ := remPhase2_spec sr env key true st2
        have hcl2 : mapContains st2.list_map key = false := by rw [hl2]; exact hcl
        rw [hq1 hcl2] at hr
        simp at hr
      · rename_i e2 st2 heq
        obtain ⟨hm2, hl2, -⟩ := dumpdb_eq_maps sr env _ _ _ heq
        dsimp only [mapRemove] at hm2 hl2
        simp only [Prod.mk.injEq, Except.error.injEq] at hr
        obtain ⟨he, hst⟩ := hr
        subst hst
        dsimp only [mapInsert]
        constructor
        · rw [hm2]
          exact mapEquiv_insert_remove_restore _ _ _ hg
        · rw [hl2]
          exact fun k => rfl

/-- Witness for C4: removing the present key `"k"` from a `NeverDump` store
returns `Ok(true)` and deletes it; removing a missing key is an error-free
no-op. -/
theorem rem_spec_witness :
    rem natSer ⟨true, true, 0⟩ "missing"
      ({ map := [("k", 3)], list_map := [], file := none, writeCount := 0,
         dump_policy := .NeverDump, last_dump := 0 } : DbState Nat NatF) =
      (.ok false,
        { map := [("k", 3)], list_map := [], file := none, writeCount := 0,
          dump_policy := .NeverDump, last_dump := 0 }) ∧
    (rem natSer ⟨true, true, 0⟩ "k"
      ({ map := [("k", 3)], list_map := [], file := none, writeCount := 0,
         dump_policy := .NeverDump, last_dump := 0 } :
         DbState Nat NatF)).2.map = [] :=
  have h := rem_spec natSer ⟨true, true, 0⟩ "missing"
    ({ map := [("k", 3)], list_map := [], file := none, writeCount := 0,
       dump_policy := .NeverDump, last_dump := 0 } : DbState Nat NatF)
  have h2 := rem_spec natSer ⟨true, true, 0⟩ "k"
    ({ map := [("k", 3)], list_map := [], file := none, writeCount := 0,
       dump_policy := .NeverDump, last_dump := 0 } : DbState Nat NatF)
  ⟨h.1 rfl rfl, by
    have := (h2.2.1 true
      (rem natSer ⟨true, true, 0⟩ "k"
        ({ map := [("k", 3)], list_map := [], file := none, writeCount := 0,
           dump_policy := .NeverDump, last_dump := 0 } :
           DbState Nat NatF)).2 rfl).2.1
    simpa using this⟩

/-- Under `NeverDump`, one public operation can only touch the two in-memory
maps: the backing file, the write counter, the policy and `last_dump` are
untouched. -/
theorem stepSt_neverDump [DecidableEq B] (sr : Ser B F V) (env : Env)
    (op : Op V) (m : List (String × B)) (l : List (String × List B))
    (f : Option F) (w t : Nat) :
    ∃ m' l', stepSt sr env op ⟨m, l, f, w, .NeverDump, t⟩ =
      ⟨m', l', f, w, .NeverDump, t⟩ := by
  have hdd : ∀ (m₀ : List (String × B)) (l₀ : List (String × List B)),
      dumpdb sr env ⟨m₀, l₀, f, w, .NeverDump, t⟩ =
        (.ok (), ⟨m₀, l₀, f, w, .NeverDump, t⟩) := fun _ _ => rfl
  cases op with
  | opSet k v =>
    dsimp only [stepSt]
    unfold set
    cases hsd : sr.serData v with
    | error s =>
      dsimp only
      split <;> exact ⟨_, _, rfl⟩
    | ok b =>
      dsimp only
      by_cases hc : mapContains l k = true
      · rw [if_pos hc]
        dsimp only
        rw [hdd]
        exact ⟨_, _, rfl⟩
      · rw [if_neg hc]
        dsimp only
        rw [hdd]
        exact ⟨_, _, rfl⟩
  | opRem k =>
    dsimp only [stepSt]
    unfold rem remPhase2
    cases hgm : mapGet m k with
    | none =>
      dsimp only
      cases hgl : mapGet l k with
      | none => exact ⟨_, _, rfl⟩
      | some list =>
        dsimp only
        rw [hdd]
        exact ⟨_, _, rfl⟩
    | some val =>
      dsimp only
      rw [hdd]
      dsimp only
      cases hgl : mapGet l k with
      | none => exact ⟨_, _, rfl⟩
      | some list =>
        dsimp only
        rw [hdd]
        exact ⟨_, _, rfl⟩
  | opLcreate n =>
    dsimp only [stepSt]
    unfold lcreate
    by_cases hc : mapContains m n = true
    · rw [if_pos hc]
      dsimp only
      rw [hdd]
      exact ⟨_, _, rfl⟩
    · rw [if_neg hc]
      dsimp only
      rw [hdd]
      exact ⟨_, _, rfl⟩
  | opLadd n v =>
    dsimp only [stepSt]
    unfold ladd lextend
    cases hg : mapGet l n with
    | none => exact ⟨_, _, rfl⟩
    | some list =>
      dsimp only
      cases hs : serializeAll sr [v] with
      | error s => exact ⟨_, _, rfl⟩
      | ok sers =>
        dsimp only
        rw [hdd]
        exact ⟨_, _, rfl⟩
  | opLextend n vs =>
    dsimp only [stepSt]
    unfold lextend
    cases hg : mapGet l n with
    | none => exact ⟨_, _, rfl⟩
    | some list =>
      dsimp only
      cases hs : serializeAll sr vs with
      | error s => exact ⟨_, _, rfl⟩
      | ok sers =>
        dsimp only
        rw [hdd]
        exact ⟨_, _, rfl⟩
  | opLremList n =>
    dsimp only [stepSt]
    unfold lrem_list
    cases hg : mapGet l n with
    | none => exact ⟨_, _, rfl⟩
    | some list =>
      dsimp only
      rw [hdd]
      exact ⟨_, _, rfl⟩
  | opLpop n i =>
    dsimp only [stepSt]
    unfold lpop
    cases hg : mapGet l n with
    | none => exact ⟨_, _, rfl⟩
    | some list =>
      dsimp only
      by_cases hi : i < list.length
      · rw [dif_pos hi]
        rw [hdd]
        exact ⟨_, _, rfl⟩
      · rw [dif_neg hi]
        exact ⟨_, _, rfl⟩
  | opLremValue n v =>
    dsimp only [stepSt]
    unfold lrem_value
    cases hg : mapGet l n with
    | none => exact ⟨_, _, rfl⟩
    | some list =>
      dsimp only
      cases hsd : sr.serData v with
      | error s => exact ⟨_, _, rfl⟩
      | ok sv =>
        dsimp only
        cases hix : list.indexOf? sv with
        | none => exact ⟨_, _, rfl⟩
        | some pos =>
          dsimp only
          rw [hdd]
          exact ⟨_, _, rfl⟩
  | opDump =>
    exact ⟨m, l, rfl⟩

/-- Running any sequence of public operations on a `NeverDump` store changes
only the two in-memory maps. -/
theorem run_neverDump [DecidableEq B] (sr : Ser B F V)
    (ops : List (Env × Op V)) :
    ∀ (m : List (String × B)) (l : List (String × List B)) (f : Option F)
      (w t : Nat),
      ∃ m' l', run sr ops ⟨m, l, f, w, .NeverDump, t⟩ =
        ⟨m', l', f, w, .NeverDump, t⟩ := by
  induction ops with
  | nil =>
    intro m l f w t
    exact ⟨m, l, rfl⟩
  | cons p rest ih =>
    intro m l f w t
    obtain ⟨env, op⟩ := p
    obtain ⟨m1, l1, heq⟩ := stepSt_neverDump sr env op m l f w t
    dsimp only [run]
    rw [heq]
    exact ih m1 l1 f w t

/-- C5: under `NeverDump`, no sequence of `set`/`remove`/list mutations or
explicit `dump()` calls ever performs a file write — the backing file and the
count of attempted `fs::write`/`fs::rename` calls are unchanged — and
`dump()` always returns success leaving the store untouched. -/
theorem neverDump_no_writes [DecidableEq B] (sr : Ser B F V)
    (ops : List (Env × Op V)) (st : DbState B F)
    (h : st.dump_policy = .NeverDump) :
    (run sr ops st).file = st.file ∧
    (run sr ops st).writeCount = st.writeCount ∧
    (∀ env, dump sr env st = (.ok (), st)) := by
  rcases st with ⟨m, l, f, w, p, t⟩
  dsimp only at h
  subst h
  obtain ⟨m', l', heq⟩ := run_neverDump sr ops m l f w t
  rw [heq]
  exact ⟨rfl, rfl, fun env => dump_neverDump sr env _ rfl⟩

/-- Witness for C5: two mutations and an explicit dump on a fresh `NeverDump`
store (even with the file system refusing all writes) leave no file and a
zero write count, and `dump` succeeds. -/
theorem neverDump_no_writes_witness :
    (run natSer
      [(⟨false, false, 1⟩, .opSet "k" 1), (⟨false, false, 2⟩, .opRem "k"),
       (⟨false, false, 3⟩, .opDump)]
      (newDb .NeverDump 0 : DbState Nat NatF)).file = none ∧
    (run natSer
      [(⟨false, false, 1⟩, .opSet "k" 1), (⟨false, false, 2⟩, .opRem "k"),
       (⟨false, false, 3⟩, .opDump)]
      (newDb .NeverDump 0 : DbState Nat NatF)).writeCount = 0 ∧
    dump natSer ⟨false, false, 4⟩ (newDb .NeverDump 0 : DbState Nat NatF) =
      (.ok (), newDb .NeverDump 0) :=
  have h := neverDump_no_writes natSer
    [(⟨false, false, 1⟩, .opSet "k" 1), (⟨false, false, 2⟩, .opRem "k"),
     (⟨false, false, 3⟩, .opDump)]
    (newDb .NeverDump 0 : DbState Nat NatF) rfl
  ⟨h.1, h.2.1, h.2.2 ⟨false, false, 4⟩⟩

/-! ## Invariant I1: key-disjointness of the scalar map and the list map -/

/-- Invariant I1 of the spec: no key is present in both maps at once. -/
def listDisjoint {α β : Type} (m : List (String × α)) (l : List (String × β)) :
    Prop :=
  ∀ k, mapContains m k = true → mapContains l k = false

theorem contains_insertL_imp {α : Type} (m : List (String × α)) (k k' : String)
    (v : α) (h : mapContains (mapInsertL m k v) k' = true) :
    k' = k ∨ mapContains m k' = true := by
  by_cases hk : k' = k
  · exact Or.inl hk
  · right
    rw [mapContains, mapGet_insertL_ne m k k' v hk] at h
    exact h

theorem contains_removeL_imp {α : Type} (m : List (String × α)) (k k' : String)
    (h : mapContains (mapRemoveL m k) k' = true) :
    mapContains m k' = true := by
  by_cases hk : k' = k
  · subst hk
    by_cases hc : mapContains m k' = true
    · exact hc
    · have hcf : mapContains m k' = false := by
        cases hb : mapContains m k' with
        | false => rfl
        | true => exact absurd hb hc
      rw [removeL_of_notMem m k' (mapGet_none_of_contains_false _ _ hcf)] at h
      exact h
  · rw [mapContains, mapGet_removeL_ne m k k' hk] at h
    exact h

theorem contains_removeL_false {α : Type} (m : List (String × α))
    (k k' : String) (h : mapContains m k' = false) :
    mapContains (mapRemoveL m k) k' = false := by
  cases hb : mapContains (mapRemoveL m k) k' with
  | false => rfl
  | true => rw [contains_removeL_imp m k k' hb] at h; exact h

theorem listDisjoint_insert_left {α β : Type} {m : List (String × α)}
    {l : List (String × β)} (h : listDisjoint m l) (k : String) (v : α)
    (hk : mapContains l k = false) : listDisjoint (mapInsertL m k v) l := by
  intro k' h'
  rcases contains_insertL_imp m k k' v h' with rfl | hm
  · exact hk
  · exact h k' hm

theorem listDisjoint_insert_right {α β : Type} {m : List (String × α)}
    {l : List (String × β)} (h : listDisjoint m l) (k : String) (v : β)
    (hk : mapContains m k = false) : listDisjoint m (mapInsertL l k v) := by
  intro k' h'
  have hkk : k' ≠ k := by
    intro hEq
    rw [hEq, hk] at h'
    exact Bool.noConfusion h'
  rw [mapContains, mapGet_insertL_ne l k k' v hkk]
  exact h k' h'

theorem listDisjoint_remove_left {α β : Type} {m : List (String × α)}
    {l : List (String × β)} (h : listDisjoint m l) (k : String) :
    listDisjoint (mapRemoveL m k) l :=
  fun k' h' => h k' (contains_removeL_imp m k k' h')

theorem listDisjoint_remove_right {α β : Type} {m : List (String × α)}
    {l : List (String × β)} (h : listDisjoint m l) (k : String) :
    listDisjoint m (mapRemoveL l k) :=
  fun k' h' => contains_removeL_false l k k' (h k' h')

/-- Both maps are key-disjoint and duplicate-free (true of the two `HashMap`s
in every reachable store). -/
def goodMaps {α β : Type} (m : List (String × α)) (l : List (String × β)) :
    Prop :=
  listDisjoint m l ∧ nodupKeys m ∧ nodupKeys l

/-- The induction invariant for I1: the in-memory maps are good, and the
backing file (when present) holds a snapshot of some good pair of maps. -/
def goodSt (sr : Ser B F V) (st : DbState B F) : Prop :=
  goodMaps st.map st.list_map ∧
  ∀ f, st.file = some f → ∃ m l, sr.serDb m l = .ok f ∧ goodMaps m l

/-- The dump step either leaves the backing file alone, or replaces it with a
successful snapshot encoding of the current maps. -/
theorem dump_file (sr : Ser B F V) (env : Env) (st : DbState B F) :
    (dump sr env st).2.file = st.file ∨
    ∃ f', (dump sr env st).2.file = some f' ∧
      sr.serDb st.map st.list_map = .ok f' := by
  unfold dump
  rcases st with ⟨m, l, f, w, p, t⟩
  cases p
  case NeverDump => exact Or.inl rfl
  all_goals
    cases hsd : sr.serDb m l with
    | error s => exact Or.inl rfl
    | ok ser_db =>
      dsimp only
      split
      · exact Or.inl rfl
      · split
        · exact Or.inl rfl
        · exact Or.inr ⟨ser_db, rfl, rfl⟩

theorem dump_good (sr : Ser B F V) (env : Env) (st : DbState B F)
    (hg : goodSt sr st) : goodSt sr (dump sr env st).2 := by
  obtain ⟨hmaps, hfile⟩ := hg
  obtain ⟨hm, hl, -⟩ := dump_maps (V := V) sr env st
  refine ⟨by rw [hm, hl]; exact hmaps, ?_⟩
  intro f' hf'
  rcases dump_file sr env st with hsame | ⟨f'', hnew, hsd⟩
  · rw [hsame] at hf'
    exact hfile f' hf'
  · rw [hnew, Option.some_inj] at hf'
    subst hf'
    exact ⟨st.map, st.list_map, hsd, hmaps⟩

theorem dumpdb_good (sr : Ser B F V) (env : Env) (st : DbState B F)
    (hg : goodSt sr st) : goodSt sr (dumpdb sr env st).2 := by
  unfold dumpdb
  rcases st with ⟨m, l, f, w, p, t⟩
  cases p <;> dsimp only
  case NeverDump => exact hg
  case DumpUponRequest => exact hg
  case AutoDump => exact dump_good sr env _ hg
  case PeriodicDump d =>
    split
    · have hgood := dump_good sr env ⟨m, l, f, w, .PeriodicDump d, env.now⟩
        (by exact hg)
      rcases hd : dump sr env ⟨m, l, f, w, .PeriodicDump d, env.now⟩
        with ⟨r, st2⟩
      rw [hd] at hgood
      cases r <;> exact hgood
    · exact hg

theorem contains_false_of_disjoint_right {α β : Type} {m : List (String × α)}
    {l : List (String × β)} (h : listDisjoint m l) {k : String}
    (hk : mapContains l k = true) : mapContains m k = false := by
  cases hb : mapContains m k with
  | false => rfl
  | true => rw [h k hb] at hk; exact Bool.noConfusion hk

theorem goodMaps_insert_left {α β : Type} {m : List (String × α)}
    {l : List (String × β)} (h : goodMaps m l) (k : String) (v : α)
    (hk : mapContains l k = false) : goodMaps (mapInsertL m k v) l :=
  ⟨listDisjoint_insert_left h.1 k v hk, nodup_insertL _ _ _ h.2.1, h.2.2⟩

theorem goodMaps_insert_right {α β : Type} {m : List (String × α)}
    {l : List (String × β)} (h : goodMaps m l) (k : String) (v : β)
    (hk : mapContains m k = false) : goodMaps m (mapInsertL l k v) :=
  ⟨listDisjoint_insert_right h.1 k v hk, h.2.1, nodup_insertL _ _ _ h.2.2⟩

theorem goodMaps_remove_left {α β : Type} {m : List (String × α)}
    {l : List (String × β)} (h : goodMaps m l) (k : String) :
    goodMaps (mapRemoveL m k) l :=
  ⟨listDisjoint_remove_left h.1 k, nodup_removeL _ _ h.2.1, h.2.2⟩

theorem goodMaps_remove_right {α β : Type} {m : List (String × α)}
    {l : List (String × β)} (h : goodMaps m l) (k : String) :
    goodMaps m (mapRemoveL l k) :=
  ⟨listDisjoint_remove_right h.1 k, h.2.1, nodup_removeL _ _ h.2.2⟩

theorem dumpdb_good_eq (sr : Ser B F V) (env : Env) (stIn st2 : DbState B F)
    (r : Except Err Unit) (heq : dumpdb sr env stIn = (r, st2))
    (hg : goodSt sr stIn) : goodSt sr st2 := by
  have h := dumpdb_good sr env stIn hg
  rw [heq] at h
  exact h

theorem set_good (sr : Ser B F V) (env : Env) (k : String) (v : V)
    (st : DbState B F) (hg : goodSt sr st) : goodSt sr (set sr env k v st).2 := by
  obtain ⟨hmaps, hfile⟩ := hg
  unfold set
  by_cases hc : mapContains st.list_map k = true
  · rw [if_pos hc]
    dsimp only
    have hrf : mapContains (mapRemoveL st.list_map k) k = false :=
      contains_removeL_self _ _ hmaps.2.2
    cases hsd : sr.serData v with
    | error s => exact ⟨goodMaps_remove_right hmaps k, hfile⟩
    | ok b =>
      dsimp only
      have hg1 : goodSt sr
          { st with map := (mapInsert st.map k b).1,
                    list_map := (mapRemove st.list_map k).1 } :=
        ⟨goodMaps_insert_left (goodMaps_remove_right hmaps k) k b hrf, hfile⟩
      split
      · rename_i st2 heq
        exact dumpdb_good_eq sr env _ _ _ heq hg1
      · rename_i e st2 heq
        have h2 := dumpdb_good_eq sr env _ _ _ heq hg1
        obtain ⟨hm2, hl2, -⟩ := dumpdb_eq_maps sr env _ _ _ heq
        dsimp only [mapInsert, mapRemove] at hm2 hl2
        split
        · exact ⟨goodMaps_remove_left h2.1 k, h2.2⟩
        · rename_i ov hov
          refine ⟨goodMaps_insert_left h2.1 k ov ?_, h2.2⟩
          rw [hl2]
          exact hrf
  · rw [if_neg hc]
    dsimp only
    have hrf : mapContains st.list_map k = false := by
      cases hb : mapContains st.list_map k with
      | false => rfl
      | true => exact absurd hb hc
    cases hsd : sr.serData v with
    | error s => exact ⟨hmaps, hfile⟩
    | ok b =>
      dsimp only
      have hg1 : goodSt sr { st with map := (mapInsert st.map k b).1 } :=
        ⟨goodMaps_insert_left hmaps k b hrf, hfile⟩
      split
      · rename_i st2 heq
        exact dumpdb_good_eq sr env _ _ _ heq hg1
      · rename_i e st2 heq
        have h2 := dumpdb_good_eq sr env _ _ _ heq hg1
        obtain ⟨hm2, hl2, -⟩ := dumpdb_eq_maps sr env _ _ _ heq
        dsimp only [mapInsert] at hm2 hl2
        split
        · exact ⟨goodMaps_remove_left h2.1 k, h2.2⟩
        · rename_i ov hov
          refine ⟨goodMaps_insert_left h2.1 k ov ?_, h2.2⟩
          rw [hl2]
          exact hrf

theorem remPhase2_good (sr : Ser B F V) (env : Env) (k : String) (rM : Bool)
    (st : DbState B F) (hg : goodSt sr st) :
    goodSt sr (remPhase2 sr env k rM st).2 := by
  obtain ⟨hmaps, hfile⟩ := hg
  unfold remPhase2
  cases hgl : mapGet st.list_map k with
  | none => exact ⟨hmaps, hfile⟩
  | some list =>
    dsimp only
    have hg1 : goodSt sr { st with list_map := (mapRemove st.list_map k).1 } :=
      ⟨goodMaps_remove_right hmaps k, hfile⟩
    split
    · rename_i st2 heq
      exact dumpdb_good_eq sr env _ _ _ heq hg1
    · rename_i e st2 heq
      have h2 := dumpdb_good_eq sr env _ _ _ heq hg1
      obtain ⟨hm2, -, -⟩ := dumpdb_eq_maps sr env _ _ _ heq
      dsimp only at hm2
      refine ⟨goodMaps_insert_right h2.1 k list ?_, h2.2⟩
      rw [hm2]
      exact contains_false_of_disjoint_right hmaps.1 (by simp [mapContains, hgl])

theorem rem_good (sr : Ser B F V) (env : Env) (k : String) (st : DbState B F)
    (hg : goodSt sr st) : goodSt sr (rem sr env k st).2 := by
  obtain ⟨hmaps, hfile⟩ := hg
  unfold rem
  cases hgm : mapGet st.map k with
  | none => exact remPhase2_good sr env k false st ⟨hmaps, hfile⟩
  | some val =>
    dsimp only
    have hg1 : goodSt sr { st with map := (mapRemove st.map k).1 } :=
      ⟨goodMaps_remove_left hmaps k, hfile⟩
    split
    · rename_i st2 heq
      exact remPhase2_good sr env k true st2 (dumpdb_good_eq sr env _ _ _ heq hg1)
    · rename_i e st2 heq
      have h2 := dumpdb_good_eq sr env _ _ _ heq hg1
      obtain ⟨-, hl2, -⟩ := dumpdb_eq_maps sr env _ _ _ heq
      dsimp only at hl2
      refine ⟨goodMaps_insert_left h2.1 k val ?_, h2.2⟩
      rw [hl2]
      exact hmaps.1 k (by simp [mapContains, hgm])

theorem lcreate_good (sr : Ser B F V) (env : Env) (n : String)
    (st : DbState B F) (hg : goodSt sr st) :
    goodSt sr (lcreate sr env n st).2 := by
  obtain ⟨hmaps, hfile⟩ := hg
  unfold lcreate
  by_cases hc : mapContains st.map n = true
  · rw [if_pos hc]
    dsimp only
    have hg1 : goodSt sr
        { st with map := (mapRemove st.map n).1,
                  list_map := (mapInsert st.list_map n []).1 } :=
      ⟨goodMaps_insert_right (goodMaps_remove_left hmaps n) n []
        (contains_removeL_self _ _ hmaps.2.1), hfile⟩
    split
    · rename_i st2 heq
      exact dumpdb_good_eq sr env _ _ _ heq hg1
    · rename_i e st2 heq
      exact dumpdb_good_eq sr env _ _ _ heq hg1
  · rw [if_neg hc]
    dsimp only
    have hcf : mapContains st.map n = false := by
      cases hb : mapContains st.map n with
      | false => rfl
      | true => exact absurd hb hc
    have hg1 : goodSt sr { st with list_map := (mapInsert st.list_map n []).1 } :=
      ⟨goodMaps_insert_right hmaps n [] hcf, hfile⟩
    split
    · rename_i st2 heq
      exact dumpdb_good_eq sr env _ _ _ heq hg1
    · rename_i e st2 heq
      exact dumpdb_good_eq sr env _ _ _ heq hg1

theorem lextend_good (sr : Ser B F V) (env : Env) (n : String) (seq : List V)
    (st : DbState B F) (hg : goodSt sr st) :
    goodSt sr (lextend sr env n seq st).state := by
  obtain ⟨hmaps, hfile⟩ := hg
  unfold lextend
  cases hgl : mapGet st.list_map n with
  | none => exact ⟨hmaps, hfile⟩
  | some list =>
    dsimp only
    cases hs : serializeAll sr seq with
    | error s => exact ⟨hmaps, hfile⟩
    | ok sers =>
      dsimp only
      have hcm : mapContains st.map n = false :=
        contains_false_of_disjoint_right hmaps.1 (by simp [mapContains, hgl])
      have hg1 : goodSt sr
          { st with list_map := (mapInsert st.list_map n (list ++ sers)).1 } :=
        ⟨goodMaps_insert_right hmaps n _ hcm, hfile⟩
      split
      · rename_i st2 heq
        exact dumpdb_good_eq sr env _ _ _ heq hg1
      · rename_i e st2 heq
        have h2 := dumpdb_good_eq sr env _ _ _ heq hg1
        obtain ⟨hm2, -, -⟩ := dumpdb_eq_maps sr env _ _ _ heq
        dsimp only at hm2
        refine ⟨goodMaps_insert_right h2.1 n _ ?_, h2.2⟩
        rw [hm2]
        exact hcm

theorem lrem_list_good (sr : Ser B F V) (env : Env) (n : String)
    (st : DbState B F) (hg : goodSt sr st) :
    goodSt sr (lrem_list sr env n st).2 := by
  obtain ⟨hmaps, hfile⟩ := hg
  unfold lrem_list
  cases hgl : mapGet st.list_map n with
  | none => exact ⟨hmaps, hfile⟩
  | some list =>
    dsimp only
    have hg1 : goodSt sr { st with list_map := (mapRemove st.list_map n).1 } :=
      ⟨goodMaps_remove_right hmaps n, hfile⟩
    split
    · rename_i st2 heq
      exact dumpdb_good_eq sr env _ _ _ heq hg1
    · rename_i e st2 heq
      have h2 := dumpdb_good_eq sr env _ _ _ heq hg1
      obtain ⟨hm2, -, -⟩ := dumpdb_eq_maps sr env _ _ _ heq
      dsimp only at hm2
      refine ⟨goodMaps_insert_right h2.1 n list ?_, h2.2⟩
      rw [hm2]
      exact contains_false_of_disjoint_right hmaps.1 (by simp [mapContains, hgl])

theorem lpop_good (sr : Ser B F V) (env : Env) (n : String) (i : Nat)
    (st : DbState B F) (hg : goodSt sr st) :
    goodSt sr (lpop sr env n i st).2 := by
  obtain ⟨hmaps, hfile⟩ := hg
  unfold lpop
  cases hgl : mapGet st.list_map n with
  | none => exact ⟨hmaps, hfile⟩
  | some list =>
    dsimp only
    have hcm : mapContains st.map n = false :=
      contains_false_of_disjoint_right hmaps.1 (by simp [mapContains, hgl])
    by_cases hi : i < list.length
    · rw [dif_pos hi]
      have hg1 : goodSt sr
          { st with list_map := (mapInsert st.list_map n (list.eraseIdx i)).1 } :=
        ⟨goodMaps_insert_right hmaps n _ hcm, hfile⟩
      split
      · rename_i st2 heq
        exact dumpdb_good_eq sr env _ _ _ heq hg1
      · rename_i e st2 heq
        have h2 := dumpdb_good_eq sr env _ _ _ heq hg1
        obtain ⟨hm2, -, -⟩ := dumpdb_eq_maps sr env _ _ _ heq
        dsimp only at hm2
        refine ⟨goodMaps_insert_right h2.1 n _ ?_, h2.2⟩
        rw [hm2]
        exact hcm
    · rw [dif_neg hi]
      exact ⟨hmaps, hfile⟩

theorem lrem_value_good [DecidableEq B] (sr : Ser B F V) (env : Env)
    (n : String) (v : V) (st : DbState B F) (hg : goodSt sr st) :
    goodSt sr (lrem_value sr env n v st).2 := by
  obtain ⟨hmaps, hfile⟩ := hg
  unfold lrem_value
  cases hgl : mapGet st.list_map n with
  | none => exact ⟨hmaps, hfile⟩
  | some list =>
    dsimp only
    cases hsd : sr.serData v with
    | error s => exact ⟨hmaps, hfile⟩
    | ok sv =>
      dsimp only
      have hcm : mapContains st.map n = false :=
        contains_false_of_disjoint_right hmaps.1 (by simp [mapContains, hgl])
      cases hix : list.indexOf? sv with
      | none => exact ⟨hmaps, hfile⟩
      | some pos =>
        dsimp only
        have hg1 : goodSt sr
            { st with list_map := (mapInsert st.list_map n (list.eraseIdx pos)).1 } :=
          ⟨goodMaps_insert_right hmaps n _ hcm, hfile⟩
        split
        · rename_i st2 heq
          exact dumpdb_good_eq sr env _ _ _ heq hg1
        · rename_i e st2 heq
          have h2 := dumpdb_good_eq sr env _ _ _ heq hg1
          obtain ⟨hm2, -, -⟩ := dumpdb_eq_maps sr env _ _ _ heq
          dsimp only at hm2
          refine ⟨goodMaps_insert_right h2.1 n _ ?_, h2.2⟩
          rw [hm2]
          exact hcm

theorem stepSt_good [DecidableEq B] (sr : Ser B F V) (env : Env) (op : Op V)
    (st : DbState B F) (hg : goodSt sr st) :
    goodSt sr (stepSt sr env op st) := by
  cases op with
  | opSet k v => exact set_good sr env k v st hg
  | opRem k => exact rem_good sr env k st hg
  | opLcreate n => exact lcreate_good sr env n st hg
  | opLadd n v => exact lextend_good sr env n [v] st hg
  | opLextend n vs => exact lextend_good sr env n vs st hg
  | opLremList n => exact lrem_list_good sr env n st hg
  | opLpop n i => exact lpop_good sr env n i st hg
  | opLremValue n v => exact lrem_value_good sr env n v st hg
  | opDump => exact dump_good sr env st hg

/-- Every reachable store satisfies the induction invariant, assuming the
snapshot codec round-trips (spec §4.2; serialization.rs is not in the given
sources). -/
theorem reachable_good [DecidableEq B] (sr : Ser B F V) (hrt : sr.DbRoundtrip)
    (st : DbState B F) (h : Reachable sr st) : goodSt sr st := by
  induction h with
  | new policy now =>
    refine ⟨⟨fun k hk => ?_, ?_, ?_⟩, fun f hf => ?_⟩
    · simp [mapContains, mapGet, newDb] at hk
    · simp [nodupKeys, newDb]
    · simp [nodupKeys, newDb]
    · simp [newDb] at hf
  | step env op st h ih => exact stepSt_good sr env op st ih
  | load st env st' policy now st'' h hdump hload ih =>
    have h' : goodSt sr st' := by
      have hgd := dump_good sr env st ih
      rw [hdump] at hgd
      exact hgd
    unfold loadDb at hload
    cases hf : st'.file with
    | none => rw [hf] at hload; exact absurd hload (by simp)
    | some f =>
      rw [hf] at hload
      dsimp only at hload
      cases hde : sr.deDb f with
      | error s => rw [hde] at hload; exact absurd hload (by simp)
      | ok maps =>
        rw [hde] at hload
        dsimp only at hload
        rw [Except.ok.injEq] at hload
        obtain ⟨m, l, hsd, hgml⟩ := h'.2 f hf
        have hml : maps = (m, l) := by
          have hdd := hrt m l f hsd
          rw [hde, Except.ok.injEq] at hdd
          exact hdd
        subst hml
        subst hload
        exact ⟨hgml, fun f' hf' => by
          rw [Option.some_inj] at hf'
          subst hf'
          exact ⟨m, l, hsd, hgml⟩⟩

/-- Whatever happens inside `set` (serialization failure, dump failure and
rollback, or success), the resulting list map is the original with the key's
list binding removed. -/
theorem set_list_map (sr : Ser B F V) (env : Env) (key : String) (v : V)
    (st : DbState B F) :
    (set sr env key v st).2.list_map = mapRemoveL st.list_map key := by
  unfold set
  by_cases hc : mapContains st.list_map key = true
  · rw [if_pos hc]
    dsimp only
    cases hsd : sr.serData v with
    | error s => rfl
    | ok b =>
      dsimp only
      split
      · rename_i st2 heq
        obtain ⟨-, hl2, -⟩ := dumpdb_eq_maps sr env _ _ _ heq
        simpa using hl2
      · rename_i e st2 heq
        obtain ⟨-, hl2, -⟩ := dumpdb_eq_maps sr env _ _ _ heq
        split <;> simpa using hl2
  · rw [if_neg hc]
    dsimp only
    have hcf : mapContains st.list_map key = false := by
      cases hb : mapContains st.list_map key with
      | false => rfl
      | true => exact absurd hb hc
    have hrem : mapRemoveL st.list_map key = st.list_map :=
      removeL_of_notMem _ _ (mapGet_none_of_contains_false _ _ hcf)
    rw [hrem]
    cases hsd : sr.serData v with
    | error s => rfl
    | ok b =>
      dsimp only
      split
      · rename_i st2 heq
        obtain ⟨-, hl2, -⟩ := dumpdb_eq_maps sr env _ _ _ heq
        simpa using hl2
      · rename_i e st2 heq
        obtain ⟨-, hl2, -⟩ := dumpdb_eq_maps sr env _ _ _ heq
        split <;> simpa using hl2

/-- Whatever happens inside `lcreate`, the resulting scalar map is the
original with the name's scalar binding removed. -/
theorem lcreate_map (sr : Ser B F V) (env : Env) (name : String)
    (st : DbState B F) :
    (lcreate sr env name st).2.map = mapRemoveL st.map name := by
  unfold lcreate
  by_cases hc : mapContains st.map name = true
  · rw [if_pos hc]
    dsimp only
    split
    · rename_i st2 heq
      obtain ⟨hm2, -, -⟩ := dumpdb_eq_maps sr env _ _ _ heq
      simpa using hm2
    · rename_i e st2 heq
      obtain ⟨hm2, -, -⟩ := dumpdb_eq_maps sr env _ _ _ heq
      simpa using hm2
  · rw [if_neg hc]
    dsimp only
    have hcf : mapContains st.map name = false := by
      cases hb : mapContains st.map name with
      | false => rfl
      | true => exact absurd hb hc
    have hrem : mapRemoveL st.map name = st.map :=
      removeL_of_notMem _ _ (mapGet_none_of_contains_false _ _ hcf)
    rw [hrem]
    split
    · rename_i st2 heq
      obtain ⟨hm2, -, -⟩ := dumpdb_eq_maps sr env _ _ _ heq
      simpa using hm2
    · rename_i e st2 heq
      obtain ⟨hm2, -, -⟩ := dumpdb_eq_maps sr env _ _ _ heq
      simpa using hm2

/-- C2 (invariant I1): every store reachable through the public operations
(`new`, any mutation, `load` of a dumped file) keeps the scalar map and the
list map key-disjoint; moreover `set` always removes any same-named list and
`lcreate` any same-named scalar (stated for duplicate-free maps, as a
`HashMap` always is). The codec round-trip hypothesis models §4.2 of the
spec. -/
theorem invariant_I1 [DecidableEq B] (sr : Ser B F V) (hrt : sr.DbRoundtrip) :
    (∀ st : DbState B F, Reachable sr st →
      listDisjoint st.map st.list_map) ∧
    (∀ (env : Env) (key : String) (v : V) (st : DbState B F),
      nodupKeys st.list_map →
      mapContains (set sr env key v st).2.list_map key = false) ∧
    (∀ (env : Env) (name : String) (st : DbState B F), nodupKeys st.map →
      mapContains (lcreate sr env name st).2.map name = false) := by
  refine ⟨?_, ?_, ?_⟩
  · intro st h
    exact (reachable_good sr hrt st h).1.1
  · intro env key v st hnd
    rw [set_list_map]
    exact contains_removeL_self _ _ hnd
  · intro env name st hnd
    rw [lcreate_map]
    exact contains_removeL_self _ _ hnd

/-- Witness for C2: a store reached by `set "x" 1` then `lcreate "x"` from a
fresh `AutoDump` store has disjoint maps; a `set "x"` over a list `"x"`
leaves no list binding, and an `lcreate "x"` over a scalar `"x"` leaves no
scalar binding. -/
theorem invariant_I1_witness :
    listDisjoint
      (stepSt natSer ⟨true, true, 0⟩ (.opLcreate "x")
        (stepSt natSer ⟨true, true, 0⟩ (.opSet "x" 1)
          (newDb .AutoDump 0 : DbState Nat NatF))).map
      (stepSt natSer ⟨true, true, 0⟩ (.opLcreate "x")
        (stepSt natSer ⟨true, true, 0⟩ (.opSet "x" 1)
          (newDb .AutoDump 0 : DbState Nat NatF))).list_map ∧
    mapContains
      (set natSer ⟨true, true, 0⟩ "x" 5
        ({ map := [], list_map := [("x", [7])], file := none, writeCount := 0,
           dump_policy := .AutoDump, last_dump := 0 } :
           DbState Nat NatF)).2.list_map "x" = false ∧
    mapContains
      (lcreate natSer ⟨true, true, 0⟩ "x"
        ({ map := [("x", 7)], list_map := [], file := none, writeCount := 0,
           dump_policy := .AutoDump, last_dump := 0 } :
           DbState Nat NatF)).2.map "x" = false :=
  have hrt : (natSer).DbRoundtrip := by
    intro m l f h
    injection h with h2
    rw [← h2]
    rfl
  have h := invariant_I1 natSer hrt
  ⟨h.1 _ (.step _ _ _ (.step _ _ _ (.new .AutoDump 0))),
   h.2.1 ⟨true, true, 0⟩ "x" 5 _ (by simp [nodupKeys]),
   h.2.2 ⟨true, true, 0⟩ "x" _ (by simp [nodupKeys])⟩

end KvStore
